import Mathlib

/-!
Verification of the mcpdoc documentation server's core logic: source
classification, the domain registry and local allow-list, the fetch gate
(`executeFetchDocs`), the meta-refresh redirect handling, and the source
catalog rendering. Definitions are shallow embeddings of the TypeScript
source (src/unnamed/part_001 and the shared helpers in src/src); platform
functions the code calls (Node's `path.resolve`, the WHATWG `URL` parser,
JavaScript string primitives, `fetch`, timers) are modelled explicitly and
documented at their definitions.
-/

namespace Mcpdoc

/-- Model of JavaScript's `String.prototype.startsWith(pre)`:
true iff `pre` is a prefix of `s` (exact code-unit comparison). -/
def jsStartsWith (s pre : String) : Bool :=
  pre.data.isPrefixOf s.data

/-- Function `isHttpOrHttps` (src/unnamed/part_001 lines 31-33):
`url.startsWith("http:") || url.startsWith("https:")`. -/
def isHttpOrHttps (url : String) : Bool :=
  jsStartsWith url "http:" || jsStartsWith url "https:"

/-- Splits a character list at every '/' (helper for the model of Node's
POSIX path normalization); the result is never empty. -/
def splitSlash : List Char → List (List Char)
  | [] => [[]]
  | c :: rest =>
    match splitSlash rest with
    | [] => [[]]
    | s :: ss => if c = '/' then [] :: s :: ss else (c :: s) :: ss

/-- Processes path segments left to right the way POSIX normalization does:
empty segments and "." are dropped, ".." pops the last kept segment
(clamped at the root), anything else is kept. -/
def resolveSegs (acc : List (List Char)) : List (List Char) → List (List Char)
  | [] => acc
  | s :: rest =>
    if s = [] ∨ s = ['.'] then resolveSegs acc rest
    else if s = ['.', '.'] then resolveSegs acc.dropLast rest
    else resolveSegs (acc ++ [s]) rest

/-- Platform model of Node's POSIX `path.resolve(p)` with the process
working directory `cwd`: an absolute `p` is normalized on its own, a
relative `p` is appended to `cwd` first; normalization collapses repeated
slashes, resolves "." and "..", and strips any trailing slash. -/
def resolve (cwd p : String) : String :=
  let full := if p.data.head? = some '/' then p.data else cwd.data ++ '/' :: p.data
  ⟨'/' :: List.intercalate ['/'] (resolveSegs [] (splitSlash full))⟩

/-- Function `normalizePath` (src/unnamed/part_001 lines 38-40):
`path.startsWith("file://") ? resolve(path.slice(7)) : resolve(path)`.
The working directory is passed explicitly since the embedding has no
process state. -/
def normalizePath (cwd path : String) : String :=
  if jsStartsWith path "file://" then resolve cwd ⟨path.data.drop 7⟩
  else resolve cwd path

/-- ASCII lower-casing, the case mapping relevant to scheme/host handling
and to the `/i` regex flag on the ASCII inputs this server deals with. -/
def asciiLower (c : Char) : Char :=
  if 'A' ≤ c && c ≤ 'Z' then Char.ofNat (c.toNat + 32) else c

/-- ASCII decimal digit test (JavaScript regex `\d`). -/
def isDigitChar (c : Char) : Bool :=
  '0' ≤ c && c ≤ '9'

/-- Characters this model accepts in a hostname (lower-cased ASCII
letters, digits, '-', '.', '_'); anything else makes the URL parse fail,
matching the WHATWG parser's rejection of forbidden host code points for
the ASCII hostnames this repository deals with. -/
def isHostChar (c : Char) : Bool :=
  ('a' ≤ c && c ≤ 'z') || isDigitChar c || c == '-' || c == '.' || c == '_'

/-- Decimal value of a digit string (leading zeros allowed, as in the
WHATWG port parser). -/
def portNat (l : List Char) : Nat :=
  l.foldl (fun n c => n * 10 + (c.toNat - 48)) 0

/-- Splits `l` at its last ':' into a front part and an optional tail
(used to separate hostname and port). -/
def splitAtLastColon (l : List Char) : List Char × Option (List Char) :=
  let r := l.reverse
  match r.dropWhile (fun c => !(c == ':')) with
  | ':' :: hostRev => (hostRev.reverse, some ((r.takeWhile (fun c => !(c == ':'))).reverse))
  | _ => (l, none)

/-- Platform model of `extractDomain` (src/unnamed/part_001 lines 23-26):
`new URL(url)` followed by `protocol + "//" + host + "/"`. The WHATWG
`URL` constructor is a platform function; this model is faithful for
inputs beginning with the literal scheme "http:" or "https:" (the only
inputs the repository feeds it, gated by `isHttpOrHttps`): extra slashes
after the scheme are skipped, userinfo before '@' is discarded, the
hostname is ASCII-lower-cased, a default port (80/443) is dropped, and
`none` models the `TypeError` thrown on an unparseable URL (empty or
malformed host, non-numeric or out-of-range port, or a non-http(s)
scheme, on which the real parser may succeed but which never reaches this
function). -/
def extractDomain (url : String) : Option String :=
  let cont := fun (scheme : String) (rest : List Char) =>
    let afterSlashes := rest.dropWhile (fun c => c == '/' || c == '\\')
    let authority := afterSlashes.takeWhile
      (fun c => !(c == '/' || c == '\\' || c == '?' || c == '#'))
    let hostport := ((authority.reverse).takeWhile (fun c => !(c == '@'))).reverse
    let hp := splitAtLastColon hostport
    let host := hp.1.map asciiLower
    if host.isEmpty then none
    else if !(host.all isHostChar) then none
    else
      let hostStr : String := ⟨host⟩
      match hp.2 with
      | none => some (scheme ++ "://" ++ hostStr ++ "/")
      | some pcs =>
        if pcs.isEmpty then some (scheme ++ "://" ++ hostStr ++ "/")
        else if !(pcs.all isDigitChar) then none
        else
          let pn := portNat pcs
          if pn > 65535 then none
          else if (scheme == "http" && pn == 80) || (scheme == "https" && pn == 443) then
            some (scheme ++ "://" ++ hostStr ++ "/")
          else some (scheme ++ "://" ++ hostStr ++ ":" ++ toString pn ++ "/")
  if jsStartsWith url "https:" then cont "https" (url.data.drop 6)
  else if jsStartsWith url "http:" then cont "http" (url.data.drop 5)
  else none

/-- Structure `DocSource` (src/src/types.ts): optional name, required llms_txt
location, optional description. -/
structure DocSource where
  name : Option String := none
  llms_txt : String
  description : Option String := none
  deriving DecidableEq, Repr

/-- JavaScript `Set.add` on an insertion-ordered string set modelled as a
duplicate-free list. -/
def setAdd (s : List String) (x : String) : List String :=
  if s.contains x then s else s ++ [x]

/-- Model of `new Set(xs)`: insertion-ordered deduplication. -/
def setOfList (xs : List String) : List String :=
  xs.foldl setAdd []

/-- Model of `.map(f)` over a list whose callback may throw: the first exception
propagates and no result list is produced. -/
def mapOption (f : α → Option β) : List α → Option (List β)
  | [] => some []
  | a :: l =>
    match f a, mapOption f l with
    | some b, some bs => some (b :: bs)
    | _, _ => none

/-- Origins derived from the remote sources
(src/unnamed/part_001 lines 96-111): one `extractDomain` per source whose
location classifies as remote; `none` models the `TypeError` thrown when
any of them fails to parse. -/
def deriveOrigins (docSources : List DocSource) : Option (List String) :=
  mapOption (fun e => extractDomain e.llms_txt)
    (docSources.filter (fun e => isHttpOrHttps e.llms_txt))

/-- Domain Registry construction (src/unnamed/part_001 lines 108-119):
if `allowedDomains` contains "*" the set is cleared and holds only the
wildcard sentinel, otherwise the extra domains are unioned verbatim into
the derived origins. -/
def buildDomains (origins : List String) (allowedDomains : List String) : List String :=
  if allowedDomains.contains "*" then ["*"]
  else allowedDomains.foldl setAdd (setOfList origins)

/-- Local allow-list (src/unnamed/part_001 lines 121-123): the canonical
absolute path of every local source. -/
def buildLocalAllowlist (cwd : String) (docSources : List DocSource) : List String :=
  setOfList ((docSources.filter (fun e => !(isHttpOrHttps e.llms_txt))).map
    (fun e => normalizePath cwd e.llms_txt))

/-- The remote gate (src/unnamed/part_001 lines 147-150): allowed iff the
wildcard sentinel is present or the URL string-prefix-matches some
registry entry. -/
def isAllowed (domains : List String) (url : String) : Bool :=
  domains.contains "*" || domains.any (fun d => jsStartsWith url d)

/-- JavaScript regex `\s` on the ASCII whitespace this server deals with. -/
def isSpaceChar (c : Char) : Bool :=
  c == ' ' || c == '\t' || c == '\n' || c == '\r' || c == Char.ofNat 11 || c == Char.ofNat 12

/-- The regex class `["']`. -/
def isQuoteChar (c : Char) : Bool :=
  c == Char.ofNat 34 || c == Char.ofNat 39

/-- Case-insensitive literal match (the literal is given lower-cased);
returns the rest of the input on success. -/
def matchLit : List Char → List Char → Option (List Char)
  | [], l => some l
  | _ :: _, [] => none
  | c :: cs, x :: xs => if asciiLower x == c then matchLit cs xs else none

/-- Regex `\s+` (maximal munch; sound here since every following literal
starts with a non-space character). -/
def spaces1 : List Char → Option (List Char)
  | [] => none
  | c :: rest => if isSpaceChar c then some (rest.dropWhile isSpaceChar) else none

/-- Regex `\d+` followed in the pattern by ';' (maximal munch is sound). -/
def digits1 : List Char → Option (List Char)
  | [] => none
  | c :: rest => if isDigitChar c then some (rest.dropWhile isDigitChar) else none

/-- Regex `["']`: consume one quote character. -/
def quoteChar : List Char → Option (List Char)
  | [] => none
  | c :: rest => if isQuoteChar c then some rest else none

/-- Consume one fixed character. -/
def charLit (c : Char) : List Char → Option (List Char)
  | [] => none
  | x :: xs => if x == c then some xs else none

/-- The capture group `([^"']+)` followed by `["']`: a maximal nonempty
run of non-quote characters that must be terminated by a quote. -/
def captureTarget (l : List Char) : Option (List Char) :=
  let tgt := l.takeWhile (fun c => !(isQuoteChar c))
  if tgt.isEmpty then none
  else
    match l.drop tgt.length with
    | [] => none
    | _ :: _ => some tgt

/-- Match of the meta-refresh regex of src/unnamed/part_001 line 177
anchored at the start of `l`, returning the captured redirect target:
regex `<meta\s+http-equiv=["']refresh["']\s+content=["']\d+;\s*url=([^"']+)["']`
with the `/i` flag. -/
def matchMetaAt (l : List Char) : Option (List Char) := do
  let l ← matchLit "<meta".data l
  let l ← spaces1 l
  let l ← matchLit "http-equiv=".data l
  let l ← quoteChar l
  let l ← matchLit "refresh".data l
  let l ← quoteChar l
  let l ← spaces1 l
  let l ← matchLit "content=".data l
  let l ← quoteChar l
  let l ← digits1 l
  let l ← charLit ';' l
  let l := l.dropWhile isSpaceChar
  let l ← matchLit "url=".data l
  captureTarget l

/-- Leftmost match of the meta-refresh regex (JavaScript `String.match`
tries each start position left to right). -/
def findMetaRefresh : List Char → Option (List Char)
  | [] => none
  | c :: rest =>
    match matchMetaAt (c :: rest) with
    | some t => some t
    | none => findMetaRefresh rest

/-- Model of `content.match(metaRefreshRegex)` returning capture group 1
(src/unnamed/part_001 lines 176-180). -/
def metaRefreshTarget (content : String) : Option String :=
  (findMetaRefresh content.data).map (fun t => (⟨t⟩ : String))

/-- The `redirect` option passed to `fetch`. -/
inductive RedirectMode
  | follow
  | manual
  deriving DecidableEq, Repr

/-- A completed `fetch` response: status, status text and body text.
`fetch` itself is a platform function; theorems quantify over an
arbitrary network `net : String → RedirectMode → FetchResponse` giving
the response each GET settles with. -/
structure FetchResponse where
  status : Nat
  statusText : String
  body : String
  deriving DecidableEq, Repr

/-- `Response.ok`: status in the inclusive range 200-299. -/
def responseOk (r : FetchResponse) : Bool :=
  200 ≤ r.status && r.status ≤ 299

/-- Timer and network events emitted by `executeFetchDocs`, in program
order: `timerSet t d` models `setTimeout(() => controller_t.abort(), d)`,
`timerCleared t` models `clearTimeout` of that timer, and
`request u t m` models `fetch(u, {signal: controller_t.signal, redirect: m})`. -/
inductive Event
  | timerSet (timerId delayMs : Nat)
  | timerCleared (timerId : Nat)
  | request (url : String) (signalTimer : Nat) (mode : RedirectMode)
  deriving DecidableEq, Repr

/-- The structured errors `executeFetchDocs` can throw. -/
inductive FetchError
  | invalidSourceUrl
  | localNotAllowed (absPath : String) (allowedFiles : List String)
  | readError (cause : String)
  | urlNotAllowed (domains : List String)
  | httpError (status : Nat) (statusText : String)
  deriving DecidableEq, Repr

/-- The `error.message` carried by each thrown error, mirroring the
template strings of src/unnamed/part_001 (and Node's "Invalid URL" for
the `TypeError` out of `new URL`). -/
def FetchError.message : FetchError → String
  | .invalidSourceUrl => "Invalid URL"
  | .localNotAllowed absPath allowedFiles =>
      "Local file not allowed: " ++ absPath ++ ". Allowed files: "
        ++ String.intercalate ", " allowedFiles
  | .readError cause => "Error reading local file: " ++ cause
  | .urlNotAllowed domains =>
      "URL not allowed. Must start with one of the following domains: "
        ++ String.intercalate ", " domains
  | .httpError status statusText =>
      "Encountered an HTTP error: " ++ toString status ++ " " ++ statusText

/-- Function `executeFetchDocs` (src/unnamed/part_001 lines 81-197), the shared
fetch_docs logic used by both the MCP handler of part_001 and the UTCP
adapter. Effects are made explicit: `cwd` is the process working
directory, `turndown` the TurndownService conversion, `fs` the
filesystem read (`.error` = rejected `fs.readFile`, carrying the cause
message), `net` the network. The second component is the trace of timer
and fetch events on the remote path (the filesystem and registry work
emit no events). Timer 0 is the single `AbortController`/`setTimeout`
pair the function creates; note the source passes the same
`controller.signal` to the conditional meta-refresh follow-up GET after
`clearTimeout` has already disarmed it, and refetches the captured
target without re-checking the domain gate. -/
def executeFetchDocs (cwd : String) (turndown : String → String)
    (fs : String → Except String String)
    (net : String → RedirectMode → FetchResponse)
    (url : String) (docSources : List DocSource)
    (followRedirects : Bool) (timeout : Nat) (allowedDomains : List String) :
    Except FetchError String × List Event :=
  match deriveOrigins docSources with
  | none => (.error .invalidSourceUrl, [])
  | some origins =>
    let domains := buildDomains origins allowedDomains
    let allowedLocalFiles := buildLocalAllowlist cwd docSources
    if !(isHttpOrHttps url) then
      let absPath := normalizePath cwd url
      if !(allowedLocalFiles.contains absPath) then
        (.error (.localNotAllowed absPath allowedLocalFiles), [])
      else
        match fs absPath with
        | .ok content => (.ok (turndown content), [])
        | .error cause => (.error (.readError cause), [])
    else if !(isAllowed domains url) then
      (.error (.urlNotAllowed domains), [])
    else
      let mode := if followRedirects then RedirectMode.follow else RedirectMode.manual
      let tr0 : List Event := [.timerSet 0 timeout, .request url 0 mode, .timerCleared 0]
      let response := net url mode
      if !(responseOk response) then
        (.error (.httpError response.status response.statusText), tr0)
      else if followRedirects then
        match metaRefreshTarget response.body with
        | some redirectUrl =>
          let tr1 := tr0 ++ [.request redirectUrl 0 RedirectMode.follow]
          let redirectResponse := net redirectUrl RedirectMode.follow
          if !(responseOk redirectResponse) then
            (.error (.httpError redirectResponse.status redirectResponse.statusText), tr1)
          else (.ok (turndown redirectResponse.body), tr1)
        | none => (.ok (turndown response.body), tr0)
      else (.ok (turndown response.body), tr0)

/-- Model of JavaScript `String.prototype.trim` on ASCII whitespace. -/
def jsTrim (s : String) : String :=
  ⟨((s.data.dropWhile isSpaceChar).reverse.dropWhile isSpaceChar).reverse⟩

/-- The MCP `fetch_docs` tool boundary (src/unnamed/part_001 lines
326-364): a missing or blank url yields the parameter error text,
otherwise `executeFetchDocs` runs and any thrown error is rendered as
"Error: " plus its message, never propagated. -/
def handleFetchDocsTool (cwd : String) (turndown : String → String)
    (fs : String → Except String String) (net : String → RedirectMode → FetchResponse)
    (rawUrl : Option String) (docSources : List DocSource)
    (followRedirects : Bool) (timeout : Nat) (allowedDomains : List String) : String :=
  match rawUrl with
  | none => "Error: URL parameter is required"
  | some raw =>
    let url := jsTrim raw
    if url == "" then "Error: URL parameter is required"
    else
      match (executeFetchDocs cwd turndown fs net url docSources
          followRedirects timeout allowedDomains).1 with
      | .ok result => result
      | .error e => "Error: " ++ e.message

/-- Model of `entry.name || extractDomain(urlOrPath)`
(src/unnamed/part_001 line 308): JavaScript `||` short-circuits, so a
truthy (present, nonempty) name is used as-is and `extractDomain` is
never called; only an absent or empty name evaluates the fallback, whose
`TypeError` on an unparseable location (`none`) then propagates. -/
def nameOrDomain (e : DocSource) : Option String :=
  match e.name with
  | some n => if n == "" then extractDomain e.llms_txt else some n
  | none => extractDomain e.llms_txt

/-- The loop of the `list_doc_sources` handler (src/unnamed/part_001
lines 303-315): `content` is the accumulator the handler appends to; a
remote source appends `name-or-derived-origin` (per `nameOrDomain`), a
"URL: " line and a blank line, a local source appends
`name-or-canonical-path`, a "Path: " line and a blank line.
`entry.name || fallback` treats the empty string as absent. `none`
models the `TypeError` propagating out of the `extractDomain` fallback
of an unnamed (or empty-named) remote source with an unparseable
location. -/
def listSourcesGo (cwd : String) (content : String) : List DocSource → Option String
  | [] => some content
  | e :: rest =>
    if isHttpOrHttps e.llms_txt then
      match nameOrDomain e with
      | none => none
      | some nm =>
        listSourcesGo cwd (content ++ (nm ++ "\nURL: " ++ e.llms_txt ++ "\n\n")) rest
    else
      let path := normalizePath cwd e.llms_txt
      let nm := match e.name with
        | some n => if n == "" then path else n
        | none => path
      listSourcesGo cwd (content ++ (nm ++ "\nPath: " ++ path ++ "\n\n")) rest

/-- The `list_doc_sources` handler (src/unnamed/part_001 lines 302-315):
the loop above started from the empty string. -/
def listSources (cwd : String) (docSources : List DocSource) : Option String :=
  listSourcesGo cwd "" docSources

/-- Concatenation of a list of rendered blocks in order. -/
def joinAll : List String → String
  | [] => ""
  | s :: l => s ++ joinAll l

/-- Rendering of one catalog entry as the (amended) specification states
it: the name line (a truthy configured name verbatim, otherwise the
derived origin or canonical path), the "URL: "/"Path: " line, and a
terminating blank line; the derived-origin fallback is the only place a
remote entry can fail. Written from the amended specification's words
for comparison against `listSources`. -/
def renderEntryAmended (cwd : String) (e : DocSource) : Option String :=
  if isHttpOrHttps e.llms_txt then
    (nameOrDomain e).map (fun nm => nm ++ "\nURL: " ++ e.llms_txt ++ "\n\n")
  else
    let path := normalizePath cwd e.llms_txt
    some ((match e.name with
      | some n => if n == "" then path else n
      | none => path) ++ "\nPath: " ++ path ++ "\n\n")

/-- Whether timer `t` is armed (set and not cleared since) after the
first `i` events of a trace. -/
def timerLiveAt (trace : List Event) (t : Nat) (i : Nat) : Bool :=
  (trace.take i).foldl (fun st e =>
    match e with
    | .timerSet t2 _ => if t2 == t then true else st
    | .timerCleared t2 => if t2 == t then false else st
    | .request _ _ _ => st) false

/-- The two source classes of the Source Classifier. -/
inductive SourceKind
  | remote
  | loc
  deriving DecidableEq, Repr

/-- The classification the code performs wherever it branches on
`isHttpOrHttps` (src/unnamed/part_001 lines 101, 128): remote iff the
string starts with "http:" or "https:", local otherwise. -/
def classify (s : String) : SourceKind :=
  if isHttpOrHttps s then .remote else .loc

-- Equality of embedded results is decidable (used to evaluate the model
-- at concrete inputs).
deriving instance DecidableEq for Except

theorem nil_isPrefixOf (l : List Char) : List.isPrefixOf [] l = true := by
  cases l <;> simp [List.isPrefixOf]

theorem isPrefixOf_self (l : List Char) : l.isPrefixOf l = true := by
  induction l with
  | nil => simp [List.isPrefixOf]
  | cons c cs ih => simp [List.isPrefixOf, ih]

theorem isPrefixOf_append_right (l t : List Char) : l.isPrefixOf (l ++ t) = true := by
  induction l with
  | nil => exact nil_isPrefixOf t
  | cons c cs ih => simp [List.isPrefixOf, ih]

theorem jsStartsWith_self (s : String) : jsStartsWith s s = true :=
  isPrefixOf_self s.data

theorem jsStartsWith_append (a b : String) : jsStartsWith (a ++ b) a = true := by
  simp [jsStartsWith, String.data_append, isPrefixOf_append_right]

theorem isPrefixOf_comparable :
    ∀ (c a b : List Char), a.isPrefixOf c = true → b.isPrefixOf c = true →
      a.isPrefixOf b = true ∨ b.isPrefixOf a = true := by
  intro c
  induction c with
  | nil =>
    intro a b ha _
    cases a with
    | nil => exact Or.inl (nil_isPrefixOf b)
    | cons x xs => simp [List.isPrefixOf] at ha
  | cons z zs ih =>
    intro a b ha hb
    cases a with
    | nil => exact Or.inl (nil_isPrefixOf b)
    | cons x xs =>
      cases b with
      | nil => exact Or.inr (nil_isPrefixOf (x :: xs))
      | cons y ys =>
        simp only [List.isPrefixOf, Bool.and_eq_true, beq_iff_eq] at ha hb ⊢
        rcases ih xs ys ha.2 hb.2 with h | h
        · exact Or.inl ⟨ha.1.trans hb.1.symm, h⟩
        · exact Or.inr ⟨hb.1.trans ha.1.symm, h⟩

theorem contains_iff_mem (l : List String) (x : String) : l.contains x = true ↔ x ∈ l := by
  simp

theorem mem_setAdd (s : List String) (x y : String) : y ∈ setAdd s x ↔ y ∈ s ∨ y = x := by
  unfold setAdd
  split
  · rename_i h
    constructor
    · exact Or.inl
    · rintro (hy | rfl)
      · exact hy
      · exact (contains_iff_mem s y).mp h
  · simp [List.mem_append]

theorem mem_foldl_setAdd (l : List String) : ∀ (acc : List String) (x : String),
    x ∈ l.foldl setAdd acc ↔ x ∈ acc ∨ x ∈ l := by
  induction l with
  | nil => intro acc x; simp
  | cons a l ih =>
    intro acc x
    rw [List.foldl_cons, ih, mem_setAdd]
    constructor
    · rintro ((h | rfl) | h)
      · exact Or.inl h
      · exact Or.inr (List.mem_cons_self _ _)
      · exact Or.inr (List.mem_cons_of_mem _ h)
    · rintro (h | h)
      · exact Or.inl (Or.inl h)
      · rcases List.mem_cons.mp h with rfl | h2
        · exact Or.inl (Or.inr rfl)
        · exact Or.inr h2

theorem mem_setOfList (l : List String) (x : String) : x ∈ setOfList l ↔ x ∈ l := by
  unfold setOfList
  rw [mem_foldl_setAdd]
  simp

theorem mapOption_mem {α β : Type} (f : α → Option β) :
    ∀ (l : List α) (ys : List β), mapOption f l = some ys →
      ∀ x ∈ l, ∀ y, f x = some y → y ∈ ys := by
  intro l
  induction l with
  | nil =>
    intro ys _ x hx
    cases hx
  | cons a l ih =>
    intro ys h x hx y hy
    unfold mapOption at h
    cases hfa : f a with
    | none => rw [hfa] at h; cases h
    | some b =>
      cases hml : mapOption f l with
      | none => rw [hfa, hml] at h; cases h
      | some bs =>
        rw [hfa, hml] at h
        cases h
        rcases List.mem_cons.mp hx with rfl | hx2
        · rw [hfa] at hy
          cases hy
          exact List.mem_cons_self _ _
        · exact List.mem_cons_of_mem _ (ih bs hml x hx2 y hy)

theorem deriveOrigins_mem (ds : List DocSource) (origins : List String)
    (h : deriveOrigins ds = some origins) (e : DocSource) (he : e ∈ ds)
    (hr : isHttpOrHttps e.llms_txt = true) (orig : String)
    (ho : extractDomain e.llms_txt = some orig) : orig ∈ origins := by
  have hf : e ∈ ds.filter (fun e => isHttpOrHttps e.llms_txt) :=
    List.mem_filter.mpr ⟨he, hr⟩
  exact mapOption_mem _ _ _ h e hf orig ho

theorem mem_buildDomains_of_origin (origins ad : List String) (x : String)
    (hnw : ad.contains "*" = false) (hx : x ∈ origins) : x ∈ buildDomains origins ad := by
  unfold buildDomains
  rw [if_neg (by rw [hnw]; exact Bool.false_ne_true)]
  exact (mem_foldl_setAdd ad _ x).mpr (Or.inl ((mem_setOfList origins x).mpr hx))

theorem mem_buildDomains_of_extra (origins ad : List String) (d : String)
    (hnw : ad.contains "*" = false) (hd : d ∈ ad) : d ∈ buildDomains origins ad := by
  unfold buildDomains
  rw [if_neg (by rw [hnw]; exact Bool.false_ne_true)]
  exact (mem_foldl_setAdd ad _ d).mpr (Or.inr hd)

theorem isAllowed_of_mem (domains : List String) (d url : String)
    (hd : d ∈ domains) (hs : jsStartsWith url d = true) : isAllowed domains url = true := by
  unfold isAllowed
  rw [Bool.or_eq_true]
  exact Or.inr (List.any_eq_true.mpr ⟨d, hd, hs⟩)

theorem isAllowed_wildcard (url : String) : isAllowed ["*"] url = true := by
  simp [isAllowed]

theorem isAllowed_eq_false (domains : List String) (url : String)
    (hnw : domains.contains "*" = false)
    (h : ∀ d ∈ domains, jsStartsWith url d = false) : isAllowed domains url = false := by
  unfold isAllowed
  rw [hnw, Bool.false_or]
  cases ha : domains.any (fun d => jsStartsWith url d) with
  | false => rfl
  | true =>
    obtain ⟨d, hd, hs⟩ := List.any_eq_true.mp ha
    rw [h d hd] at hs
    cases hs

theorem splitSlash_ne_nil (l : List Char) : splitSlash l ≠ [] := by
  cases l with
  | nil => simp [splitSlash]
  | cons c rest =>
    unfold splitSlash
    cases h : splitSlash rest with
    | nil => simp
    | cons s ss =>
      dsimp
      split <;> simp

theorem splitSlash_cons_slash (l : List Char) : splitSlash ('/' :: l) = [] :: splitSlash l := by
  cases h : splitSlash l with
  | nil => exact absurd h (splitSlash_ne_nil l)
  | cons s ss =>
    unfold splitSlash
    rw [h]
    simp

theorem splitSlash_append_slash (l : List Char) :
    splitSlash (l ++ ['/']) = splitSlash l ++ [[]] := by
  induction l with
  | nil => rfl
  | cons c rest ih =>
    show splitSlash (c :: (rest ++ ['/'])) = _
    unfold splitSlash
    rw [ih]
    cases h : splitSlash rest with
    | nil => exact absurd h (splitSlash_ne_nil rest)
    | cons s ss =>
      simp only [List.cons_append]
      split <;> simp

theorem resolveSegs_cons_nil (acc : List (List Char)) (xs : List (List Char)) :
    resolveSegs acc ([] :: xs) = resolveSegs acc xs := by
  simp [resolveSegs]

theorem resolveSegs_append_nil (xs : List (List Char)) : ∀ (acc : List (List Char)),
    resolveSegs acc (xs ++ [[]]) = resolveSegs acc xs := by
  induction xs with
  | nil => intro acc; simp [resolveSegs]
  | cons s ss ih =>
    intro acc
    show resolveSegs acc (s :: (ss ++ [[]])) = resolveSegs acc (s :: ss)
    unfold resolveSegs
    split
    · exact ih acc
    · split
      · exact ih acc.dropLast
      · exact ih (acc ++ [s])

theorem resolve_root (cwd : String) :
    resolve "/" cwd
      = ⟨'/' :: List.intercalate ['/'] (resolveSegs [] (splitSlash cwd.data))⟩ := by
  unfold resolve
  by_cases h : cwd.data.head? = some '/'
  · rw [if_pos h]
  · rw [if_neg h]
    show (⟨'/' :: List.intercalate ['/']
      (resolveSegs [] (splitSlash ('/' :: '/' :: cwd.data)))⟩ : String) = _
    rw [splitSlash_cons_slash, splitSlash_cons_slash,
      resolveSegs_cons_nil, resolveSegs_cons_nil]

theorem normalizePath_empty (cwd : String) (h : resolve "/" cwd = cwd) :
    normalizePath cwd "" = cwd := by
  unfold normalizePath
  rw [if_neg (by simp [jsStartsWith, List.isPrefixOf])]
  unfold resolve
  rw [if_neg (by simp)]
  show (⟨'/' :: List.intercalate ['/']
    (resolveSegs [] (splitSlash (cwd.data ++ ['/'])))⟩ : String) = _
  rw [splitSlash_append_slash, resolveSegs_append_nil]
  rw [← resolve_root]
  exact h

theorem normalizePath_file_append (cwd s : String) :
    normalizePath cwd ("file://" ++ s) = resolve cwd s := by
  unfold normalizePath
  rw [if_pos (jsStartsWith_append "file://" s)]
  have hdrop : ("file://" ++ s).data.drop 7 = s.data := by
    rw [String.data_append]
    exact List.drop_left "file://".data s.data
  rw [hdrop]

theorem listSourcesGo_renders (cwd : String) : ∀ (ds : List DocSource) (content : String)
    (blocks : List String), mapOption (renderEntryAmended cwd) ds = some blocks →
    listSourcesGo cwd content ds = some (content ++ joinAll blocks) := by
  intro ds
  induction ds with
  | nil =>
    intro content blocks h
    unfold mapOption at h
    cases h
    simp [listSourcesGo, joinAll, String.append_empty]
  | cons e rest ih =>
    intro content blocks h
    unfold mapOption at h
    cases hre : renderEntryAmended cwd e with
    | none => rw [hre] at h; cases h
    | some b =>
      cases hrest : mapOption (renderEntryAmended cwd) rest with
      | none => rw [hre, hrest] at h; cases h
      | some bs =>
        rw [hre, hrest] at h
        cases h
        unfold listSourcesGo
        unfold renderEntryAmended at hre
        by_cases hr : isHttpOrHttps e.llms_txt = true
        · rw [if_pos hr] at hre
          rw [if_pos hr]
          cases hx : nameOrDomain e with
          | none => rw [hx] at hre; cases hre
          | some nm =>
            rw [hx] at hre
            simp only [Option.map_some'] at hre
            have hb := Option.some.inj hre
            subst hb
            dsimp only
            rw [ih _ bs hrest]
            simp only [joinAll]
            rw [String.append_assoc]
        · rw [if_neg hr] at hre
          rw [if_neg hr]
          have hb := Option.some.inj hre
          subst hb
          dsimp only
          rw [ih _ bs hrest]
          simp only [joinAll]
          rw [String.append_assoc]

/-- C3: a fetch of a local (non-http/https-classified) target is gated by
exact membership of its canonical path in the Local Allow-list built from
the same source list: a miss fails with the local AccessDenied error
before any filesystem read, and a hit succeeds (given a readable file)
with the normalized file content. The extra-domain list `ad` — including
the wildcard `["*"]` — is arbitrary and does not influence the result. -/
theorem local_fetch_exact_membership (cwd : String) (turndown : String → String)
    (fs : String → Except String String) (net : String → RedirectMode → FetchResponse)
    (url : String) (ds : List DocSource) (fr : Bool) (tm : Nat) (ad : List String)
    (origins : List String)
    (hparse : deriveOrigins ds = some origins)
    (hlocal : isHttpOrHttps url = false) :
    ((buildLocalAllowlist cwd ds).contains (normalizePath cwd url) = false →
      (executeFetchDocs cwd turndown fs net url ds fr tm ad).1
        = .error (.localNotAllowed (normalizePath cwd url) (buildLocalAllowlist cwd ds)))
    ∧ ((buildLocalAllowlist cwd ds).contains (normalizePath cwd url) = true →
      ∀ content, fs (normalizePath cwd url) = .ok content →
        (executeFetchDocs cwd turndown fs net url ds fr tm ad).1 = .ok (turndown content)) := by
  constructor
  · intro hmiss
    simp only [executeFetchDocs, hparse]
    rw [hlocal]
    simp [hmiss]
    have hnot : normalizePath cwd url ∉ buildLocalAllowlist cwd ds := by
      intro hin
      rw [(contains_iff_mem _ _).mpr hin] at hmiss
      cases hmiss
    rw [if_neg hnot]
  · intro hhit content hread
    simp only [executeFetchDocs, hparse]
    rw [hlocal]
    simp [hhit, hread]
    rw [if_pos ((contains_iff_mem _ _).mp hhit)]

/-- C4: a wildcard token among the extra domains discards every derived
origin, leaves the registry holding only the sentinel, and makes the
remote gate accept every URL. -/
theorem wildcard_collapses_registry (ds : List DocSource) (ad : List String)
    (origins : List String) (_hparse : deriveOrigins ds = some origins)
    (hw : ad.contains "*" = true) :
    buildDomains origins ad = ["*"]
    ∧ ∀ url : String, isAllowed (buildDomains origins ad) url = true := by
  have hbd : buildDomains origins ad = ["*"] := by
    unfold buildDomains
    rw [if_pos hw]
  exact ⟨hbd, fun url => by rw [hbd]; exact isAllowed_wildcard url⟩

/-- C5: every origin derived from a remote source is allowed by the
registry built from the same list, as is every string-prefix extension of
it; and a URL matching no registry entry is denied whenever the wildcard
sentinel is absent. -/
theorem registry_prefix_allow (ds : List DocSource) (ad : List String)
    (origins : List String) (hparse : deriveOrigins ds = some origins) :
    (∀ e ∈ ds, isHttpOrHttps e.llms_txt = true →
      ∀ orig, extractDomain e.llms_txt = some orig →
        isAllowed (buildDomains origins ad) orig = true
        ∧ ∀ suffix : String, isAllowed (buildDomains origins ad) (orig ++ suffix) = true)
    ∧ (∀ url : String, (buildDomains origins ad).contains "*" = false →
        (∀ d ∈ buildDomains origins ad, jsStartsWith url d = false) →
        isAllowed (buildDomains origins ad) url = false) := by
  constructor
  · intro e he hr orig ho
    have horig : orig ∈ origins := deriveOrigins_mem ds origins hparse e he hr orig ho
    by_cases hw : ad.contains "*" = true
    · have hbd : buildDomains origins ad = ["*"] := by
        unfold buildDomains
        rw [if_pos hw]
      rw [hbd]
      exact ⟨isAllowed_wildcard orig, fun suffix => isAllowed_wildcard _⟩
    · have hnw : ad.contains "*" = false := by
        cases h : ad.contains "*" with
        | false => rfl
        | true => exact absurd h hw
      have hmem : orig ∈ buildDomains origins ad :=
        mem_buildDomains_of_origin origins ad orig hnw horig
      exact ⟨isAllowed_of_mem _ orig orig hmem (jsStartsWith_self orig),
        fun suffix => isAllowed_of_mem _ orig _ hmem (jsStartsWith_append orig suffix)⟩
  · intro url hnw h
    exact isAllowed_eq_false _ url hnw h

/-- C7: classification is total and is literal, case-sensitive prefix
matching on "http:"/"https:"; the empty string is Local and canonicalizes
to the (canonical) working directory. -/
theorem classify_total_case_sensitive :
    (∀ s : String, classify s = SourceKind.remote
      ↔ (jsStartsWith s "http:" = true ∨ jsStartsWith s "https:" = true))
    ∧ classify "https://x/y" = SourceKind.remote
    ∧ classify "HTTPS://x/y" = SourceKind.loc
    ∧ classify "" = SourceKind.loc
    ∧ (∀ cwd : String, resolve "/" cwd = cwd → normalizePath cwd "" = cwd) := by
  refine ⟨?_, by decide, by decide, by decide, fun cwd h => normalizePath_empty cwd h⟩
  intro s
  unfold classify isHttpOrHttps
  by_cases h : (jsStartsWith s "http:" || jsStartsWith s "https:") = true
  · rw [if_pos h]
    simp only [Bool.or_eq_true] at h
    simpa using h
  · rw [if_neg h]
    simp only [Bool.or_eq_true, not_or, Bool.not_eq_true] at h
    constructor
    · intro hc
      exact absurd hc (by decide)
    · rintro (hc | hc)
      · rw [h.1] at hc
        cases hc
      · rw [h.2] at hc
        cases hc

/-- C6 counterexample: an extra domain supplied without a trailing slash
("https://example.com") is added verbatim, and the remote gate does match
URLs against it — refuting the claim that such an entry silently never
matches any URL. -/
theorem extra_domain_no_slash_matches :
    buildDomains [] ["https://example.com"] = ["https://example.com"]
    ∧ jsStartsWith "https://example.com/llms.txt" "https://example.com" = true
    ∧ isAllowed (buildDomains [] ["https://example.com"]) "https://example.com/llms.txt" = true :=
  ⟨by decide, by decide, by decide⟩

/-- C6 (amended): extra domains are added verbatim with no normalization,
and an entry that is prefix-incomparable with both scheme literals
"http:" and "https:" — in particular one supplied without a scheme, such
as "example.com/" — never matches any URL that classifies as remote; an
entry missing only the trailing slash still prefix-matches every URL
extending it. -/
theorem extra_domain_verbatim_unmatchable (origins ad : List String) (d : String)
    (hnw : ad.contains "*" = false) (hd : d ∈ ad)
    (h1 : d.data.isPrefixOf "http:".data = false)
    (h2 : "http:".data.isPrefixOf d.data = false)
    (h3 : d.data.isPrefixOf "https:".data = false)
    (h4 : "https:".data.isPrefixOf d.data = false) :
    d ∈ buildDomains origins ad
    ∧ ∀ url : String, isHttpOrHttps url = true → jsStartsWith url d = false := by
  refine ⟨mem_buildDomains_of_extra origins ad d hnw hd, ?_⟩
  intro url hu
  cases hs : jsStartsWith url d with
  | false => rfl
  | true =>
    unfold isHttpOrHttps at hu
    rcases Bool.or_eq_true _ _ |>.mp hu with hh | hh
    · rcases isPrefixOf_comparable url.data d.data "http:".data hs hh with hc | hc
      · rw [h1] at hc
        cases hc
      · rw [h2] at hc
        cases hc
    · rcases isPrefixOf_comparable url.data d.data "https:".data hs hh with hc | hc
      · rw [h3] at hc
        cases hc
      · rw [h4] at hc
        cases hc

/-- Witness for the amended C6 at a concrete schemeless extra domain. -/
theorem extra_domain_verbatim_unmatchable_witness :
    "example.com/" ∈ buildDomains ["https://a.com/"] ["example.com/"]
    ∧ jsStartsWith "https://example.com/x" "example.com/" = false :=
  ⟨(extra_domain_verbatim_unmatchable ["https://a.com/"] ["example.com/"] "example.com/"
      (by decide) (by decide) (by decide) (by decide) (by decide) (by decide)).1,
   (extra_domain_verbatim_unmatchable ["https://a.com/"] ["example.com/"] "example.com/"
      (by decide) (by decide) (by decide) (by decide) (by decide) (by decide)).2
     "https://example.com/x" (by decide)⟩

/-- C8: on an allowed remote target whose (post-redirect) response status
is not 2xx, `executeFetchDocs` fails with the HttpError carrying that
status and status text, and the MCP tool boundary renders it as a
textual "Error: ..." payload instead of propagating a fault. -/
theorem non2xx_http_error (cwd : String) (turndown : String → String)
    (fs : String → Except String String) (net : String → RedirectMode → FetchResponse)
    (url : String) (ds : List DocSource) (fr : Bool) (tm : Nat) (ad : List String)
    (origins : List String)
    (hparse : deriveOrigins ds = some origins)
    (hremote : isHttpOrHttps url = true)
    (hallow : isAllowed (buildDomains origins ad) url = true)
    (htrim : jsTrim url = url)
    (hbad : responseOk (net url (if fr then RedirectMode.follow else RedirectMode.manual))
      = false) :
    (executeFetchDocs cwd turndown fs net url ds fr tm ad).1
      = .error (.httpError
          (net url (if fr then RedirectMode.follow else RedirectMode.manual)).status
          (net url (if fr then RedirectMode.follow else RedirectMode.manual)).statusText)
    ∧ handleFetchDocsTool cwd turndown fs net (some url) ds fr tm ad
      = "Error: Encountered an HTTP error: "
          ++ toString (net url (if fr then RedirectMode.follow else RedirectMode.manual)).status
          ++ " " ++ (net url (if fr then RedirectMode.follow else RedirectMode.manual)).statusText := by
  have hfirst : (executeFetchDocs cwd turndown fs net url ds fr tm ad).1
      = Except.error (.httpError
          (net url (if fr then RedirectMode.follow else RedirectMode.manual)).status
          (net url (if fr then RedirectMode.follow else RedirectMode.manual)).statusText) := by
    simp only [executeFetchDocs, hparse]
    rw [hremote, hallow]
    simp [hbad]
  refine ⟨hfirst, ?_⟩
  have hne : (url == "") = false := by
    cases hq : url == "" with
    | false => rfl
    | true =>
      have hu : url = "" := by simpa using hq
      subst hu
      exact absurd hremote (by decide)
  simp only [handleFetchDocsTool, htrim, hne]
  rw [hfirst]
  have hlit : "Error: " ++ "Encountered an HTTP error: "
      = "Error: Encountered an HTTP error: " := rfl
  simp only [FetchError.message]
  simp only [String.append_assoc]
  rw [← hlit, String.append_assoc]
  simp

/-- Witness for C8 at a concrete 404 response. -/
theorem non2xx_http_error_witness :
    (executeFetchDocs "/w" (fun s => s) (fun _ => Except.error "ENOENT")
      (fun _ _ => ⟨404, "Not Found", "missing"⟩)
      "https://a.com/llms.txt" [⟨none, "https://a.com/llms.txt", none⟩] false 10000 []).1
      = .error (.httpError 404 "Not Found")
    ∧ handleFetchDocsTool "/w" (fun s => s) (fun _ => Except.error "ENOENT")
      (fun _ _ => ⟨404, "Not Found", "missing"⟩)
      (some "https://a.com/llms.txt") [⟨none, "https://a.com/llms.txt", none⟩] false 10000 []
      = "Error: Encountered an HTTP error: 404 Not Found" := by
  have h := non2xx_http_error "/w" (fun s => s) (fun _ => Except.error "ENOENT")
    (fun _ _ => ⟨404, "Not Found", "missing"⟩)
    "https://a.com/llms.txt" [⟨none, "https://a.com/llms.txt", none⟩] false 10000 []
    ["https://a.com/"] (by decide) (by decide) (by decide) (by decide) (by decide)
  constructor
  · rw [h.1]
  · rw [h.2]
    decide

/-- Witness for C3: with local source "/data/llms.txt", the path
"/data/llms.txt/extra" (differing only by a trailing segment) is denied
even under a wildcard extra-domain list, and the exact path succeeds. -/
theorem local_fetch_exact_membership_witness :
    (executeFetchDocs "/work" (fun s => s)
      (fun p => if p == "/data/llms.txt" then Except.ok "hello world" else Except.error "ENOENT")
      (fun _ _ => ⟨404, "Not Found", ""⟩)
      "/data/llms.txt/extra" [⟨none, "/data/llms.txt", none⟩] false 10000 ["*"]).1
      = .error (.localNotAllowed "/data/llms.txt/extra" ["/data/llms.txt"])
    ∧ (executeFetchDocs "/work" (fun s => s)
      (fun p => if p == "/data/llms.txt" then Except.ok "hello world" else Except.error "ENOENT")
      (fun _ _ => ⟨404, "Not Found", ""⟩)
      "/data/llms.txt" [⟨none, "/data/llms.txt", none⟩] false 10000 ["*"]).1
      = .ok "hello world" := by
  constructor
  · have h := (local_fetch_exact_membership "/work" (fun s => s)
      (fun p => if p == "/data/llms.txt" then Except.ok "hello world" else Except.error "ENOENT")
      (fun _ _ => ⟨404, "Not Found", ""⟩)
      "/data/llms.txt/extra" [⟨none, "/data/llms.txt", none⟩] false 10000 ["*"] []
      (by decide) (by decide)).1 (by decide)
    rw [h]
    decide
  · exact (local_fetch_exact_membership "/work" (fun s => s)
      (fun p => if p == "/data/llms.txt" then Except.ok "hello world" else Except.error "ENOENT")
      (fun _ _ => ⟨404, "Not Found", ""⟩)
      "/data/llms.txt" [⟨none, "/data/llms.txt", none⟩] false 10000 ["*"] []
      (by decide) (by decide)).2 (by decide) "hello world" (by decide)

/-- Witness for C4: with one configured source for https://a.com/ and the
wildcard extra domain, the registry is exactly the sentinel and an origin
with no configured source is allowed. -/
theorem wildcard_collapses_registry_witness :
    buildDomains ["https://a.com/"] ["*"] = ["*"]
    ∧ isAllowed (buildDomains ["https://a.com/"] ["*"])
        "https://unconfigured.example/anything" = true :=
  ⟨(wildcard_collapses_registry [⟨none, "https://a.com/llms.txt", none⟩] ["*"]
      ["https://a.com/"] (by decide) (by decide)).1,
   (wildcard_collapses_registry [⟨none, "https://a.com/llms.txt", none⟩] ["*"]
      ["https://a.com/"] (by decide) (by decide)).2 "https://unconfigured.example/anything"⟩

/-- Witness for C5 at the source https://a.com/llms.txt: the derived
origin and its extension are allowed, an unrelated origin is denied. -/
theorem registry_prefix_allow_witness :
    isAllowed (buildDomains ["https://a.com/"] []) "https://a.com/" = true
    ∧ isAllowed (buildDomains ["https://a.com/"] []) ("https://a.com/" ++ "other/path") = true
    ∧ isAllowed (buildDomains ["https://a.com/"] []) "https://b.com/x" = false := by
  have h := registry_prefix_allow [⟨some "Test", "https://a.com/llms.txt", none⟩] []
    ["https://a.com/"] (by decide)
  have h1 := h.1 ⟨some "Test", "https://a.com/llms.txt", none⟩ (by decide) (by decide)
    "https://a.com/" (by decide)
  exact ⟨h1.1, h1.2 "other/path", h.2 "https://b.com/x" (by decide) (by decide)⟩

/-- Witness for C7: the empty string canonicalizes to the working
directory "/work". -/
theorem classify_total_case_sensitive_witness :
    normalizePath "/work" "" = "/work" :=
  classify_total_case_sensitive.2.2.2.2 "/work" (by decide)

/-- C9 counterexample: a catalog holding the unnamed remote source
"http://" makes the enumeration throw (the name fallback evaluates
`extractDomain`, and `new URL` raises a `TypeError`), refuting "pure and
total with no failure modes". -/
theorem listSources_throws_on_unparseable :
    listSources "/work" [⟨none, "http://", none⟩] = none := by
  decide

/-- C9 (amended): whenever every entry renders — that is, every remote
source either has a truthy name (used verbatim, `extractDomain` never
called thanks to the `||` short-circuit) or a parseable location — the
enumeration succeeds and returns exactly the concatenation of the
per-source blocks (name-or-derived-origin plus "URL: " line, or
name-or-canonical-path plus "Path: " line, each terminated by a blank
line, so consecutive entries are separated by a blank line); an empty
catalog yields the empty string. Only an unnamed (or empty-named) remote
source with an unparseable location makes the handler throw. -/
theorem listSources_renders_amended :
    (∀ (cwd : String) (ds : List DocSource) (blocks : List String),
      mapOption (renderEntryAmended cwd) ds = some blocks →
      listSources cwd ds = some (joinAll blocks))
    ∧ ∀ cwd : String, listSources cwd [] = some "" := by
  constructor
  · intro cwd ds blocks h
    unfold listSources
    rw [listSourcesGo_renders cwd ds "" blocks h]
    have he : "" ++ joinAll blocks = joinAll blocks := by
      cases hj : joinAll blocks
      rfl
    rw [he]
  · intro cwd
    rfl

/-- Witness for the amended C9 on a three-source catalog exercising the
remote rendering with a derived-origin fallback, the short-circuit on a
named remote source whose location does not even parse, and the local
rendering. -/
theorem listSources_renders_amended_witness :
    listSources "/w" [⟨none, "https://a.com/llms.txt", none⟩, ⟨some "X", "http://", none⟩,
        ⟨some "Local", "/d/llms.txt", none⟩]
      = some ("https://a.com/\nURL: https://a.com/llms.txt\n\n"
          ++ "X\nURL: http://\n\nLocal\nPath: /d/llms.txt\n\n") := by
  have h := listSources_renders_amended.1 "/w"
    [⟨none, "https://a.com/llms.txt", none⟩, ⟨some "X", "http://", none⟩,
      ⟨some "Local", "/d/llms.txt", none⟩]
    ["https://a.com/\nURL: https://a.com/llms.txt\n\n", "X\nURL: http://\n\n",
      "Local\nPath: /d/llms.txt\n\n"]
    (by decide)
  rw [h]
  decide

/-- C10: canonicalizing "file://" ++ s strips exactly the seven-character
prefix and resolves the remainder against the working directory; so
"file:///abs/path" canonicalizes to "/abs/path" while the authority of
"file://host/path" is treated as the first segment of a cwd-relative
path, never as a host. -/
theorem normalizePath_strips_file_scheme :
    (∀ cwd s : String, normalizePath cwd ("file://" ++ s) = resolve cwd s)
    ∧ normalizePath "/work" "file:///abs/path" = "/abs/path"
    ∧ normalizePath "/work" "file://host/path" = "/work/host/path" :=
  ⟨normalizePath_file_append, by decide, by decide⟩

/-- C1 evaluation at the failing input: with the single allowed origin
https://a.com/ and redirect following on, a 2xx body carrying a
meta-refresh to the disallowed https://evil.example/payload makes
`executeFetchDocs` issue the second GET to that URL and return its body
as a success — no AccessDenied, although the registry (shown alongside)
does not allow the target. -/
theorem metaRefresh_disallowed_target_fetched :
    executeFetchDocs "/work" (fun s => s) (fun _ => Except.error "ENOENT")
      (fun u _ =>
        if u == "https://a.com/llms.txt" then
          ⟨200, "OK",
            "<meta http-equiv=\"refresh\" content=\"0; url=https://evil.example/payload\">"⟩
        else if u == "https://evil.example/payload" then ⟨200, "OK", "EVIL"⟩
        else ⟨404, "Not Found", ""⟩)
      "https://a.com/llms.txt" [⟨none, "https://a.com/llms.txt", none⟩] true 10000 []
      = (.ok "EVIL",
         [.timerSet 0 10000, .request "https://a.com/llms.txt" 0 .follow, .timerCleared 0,
          .request "https://evil.example/payload" 0 .follow])
    ∧ deriveOrigins [⟨none, "https://a.com/llms.txt", none⟩] = some ["https://a.com/"]
    ∧ buildDomains ["https://a.com/"] [] = ["https://a.com/"]
    ∧ isAllowed ["https://a.com/"] "https://evil.example/payload" = false :=
  ⟨by rfl, by decide, by decide, by decide⟩

/-- C2 evaluation at the failing input: on the meta-refresh follow-up,
the emitted trace shows the second GET reusing timer 0's signal after
that timer was cleared — the first GET runs under a live deadline
(timerLiveAt ... 1 = true) but the second does not
(timerLiveAt ... 3 = false), and no second timer is ever set. -/
theorem second_fetch_signal_timer_cleared :
    (executeFetchDocs "/work" (fun s => s) (fun _ => Except.error "ENOENT")
      (fun u _ =>
        if u == "https://a.com/llms.txt" then
          ⟨200, "OK",
            "<meta http-equiv=\"refresh\" content=\"0; url=https://a.com/page2\">"⟩
        else if u == "https://a.com/page2" then ⟨200, "OK", "second page"⟩
        else ⟨404, "Not Found", ""⟩)
      "https://a.com/llms.txt" [⟨none, "https://a.com/llms.txt", none⟩] true 10000 []).2
      = [.timerSet 0 10000, .request "https://a.com/llms.txt" 0 .follow, .timerCleared 0,
         .request "https://a.com/page2" 0 .follow]
    ∧ timerLiveAt [Event.timerSet 0 10000, .request "https://a.com/llms.txt" 0 .follow,
        .timerCleared 0, .request "https://a.com/page2" 0 .follow] 0 1 = true
    ∧ timerLiveAt [Event.timerSet 0 10000, .request "https://a.com/llms.txt" 0 .follow,
        .timerCleared 0, .request "https://a.com/page2" 0 .follow] 0 3 = false :=
  ⟨by rfl, by rfl, by rfl⟩

end Mcpdoc
